import Mathlib

set_option maxRecDepth 100000

/-!
Verification development for the omnibor/omnibor-go repository.

Shallow embedding conventions:
* Go byte slices (`[]byte`) are `List Nat` with every element `< 256`.
* Go strings are Lean `String`; where Go measures a string in bytes
  (`len(s)`) or hashes it, we pass through an explicit UTF-8 encoder
  `utf8Bytes` so byte counts and hashed bytes are the Go ones.
* Go string comparison (`<` on strings, byte-wise on UTF-8) is modelled as
  lexicographic comparison of the code-point sequences; UTF-8 encoding is
  monotone in code points, so the two orders agree on all strings.
* Fallible Go functions returning `(T, error)` become `Except E T` or
  `Option T`.
* `sync.Mutex` is dropped: the model is the sequential semantics of the
  code, which is what the claims quantify over.
-/

/-- The word size modulus 2^32 used by both hash functions. -/
def w32 : Nat := 4294967296

/-- Addition modulo 2^32. -/
def add32 (a b : Nat) : Nat := (a + b) % w32

/-- Left rotation of a 32-bit word by `k` bits. -/
def rotl (k x : Nat) : Nat := ((x <<< k) ||| (x >>> (32 - k))) % w32

/-- Right rotation of a 32-bit word by `k` bits. -/
def rotr (k x : Nat) : Nat := ((x >>> k) ||| (x <<< (32 - k))) % w32

/-- Bitwise complement of a 32-bit word. -/
def not32 (x : Nat) : Nat := 4294967295 ^^^ x

/-- Big-endian bytes (most significant first) of `x`, `n` bytes wide. -/
def natToBytesBE : Nat → Nat → List Nat
  | 0, _ => []
  | n + 1, x => (x >>> (8 * n)) % 256 :: natToBytesBE n x

/-- Group a byte list into big-endian 32-bit words (`4` bytes each);
a trailing group of fewer than 4 bytes is dropped (never happens on
padded input). -/
def bytesToWords : List Nat → List Nat
  | a :: b :: c :: d :: rest => (a * 16777216 + b * 65536 + c * 256 + d) :: bytesToWords rest
  | _ => []

/-- Serialize a 32-bit word to 4 big-endian bytes. -/
def wordToBytes (x : Nat) : List Nat :=
  [(x >>> 24) &&& 255, (x >>> 16) &&& 255, (x >>> 8) &&& 255, x &&& 255]

/-- Serialize a list of 32-bit words to bytes. -/
def wordsToBytes (ws : List Nat) : List Nat := ws.flatMap wordToBytes

/-- Split a word list into blocks of 16 words; `fuel` bounds the recursion
(passing `l.length` is always enough). -/
def chunks16 : Nat → List Nat → List (List Nat)
  | 0, _ => []
  | _, [] => []
  | n + 1, l => l.take 16 :: chunks16 n (l.drop 16)

/-- Merkle–Damgård padding shared by SHA-1 and SHA-256: append `0x80`,
then zeros to 56 mod 64 bytes, then the bit length as 8 big-endian
bytes. -/
def padMessage (msg : List Nat) : List Nat :=
  msg ++ [128] ++ List.replicate ((119 - msg.length % 64) % 64) 0
      ++ natToBytesBE 8 (msg.length * 8)

/-- SHA-1 round constant for round `i`. -/
def sha1K (i : Nat) : Nat :=
  if i < 20 then 1518500249
  else if i < 40 then 1859775393
  else if i < 60 then 2400959708
  else 3395469782

/-- SHA-1 round function for round `i`. -/
def sha1F (i b c d : Nat) : Nat :=
  if i < 20 then (b &&& c) ||| (not32 b &&& d)
  else if i < 40 then b ^^^ c ^^^ d
  else if i < 60 then (b &&& c) ||| (b &&& d) ||| (c &&& d)
  else b ^^^ c ^^^ d

/-- Extend the 16 schedule words to 80, keeping the list reversed (newest
word first) so that `w[i-3]`, `w[i-8]`, `w[i-14]`, `w[i-16]` sit at fixed
indices 2, 7, 13, 15. -/
def sha1ExtendRev : Nat → List Nat → List Nat
  | 0, ws => ws
  | n + 1, ws =>
      sha1ExtendRev n
        (rotl 1 (((ws.getD 2 0) ^^^ (ws.getD 7 0)) ^^^ ((ws.getD 13 0) ^^^ (ws.getD 15 0))) :: ws)

/-- The 80 SHA-1 message-schedule words of one 16-word block. -/
def sha1Schedule (block : List Nat) : List Nat :=
  (sha1ExtendRev 64 block.reverse).reverse

/-- One pass over the schedule words starting at round `i`. -/
def sha1Rounds : Nat → List Nat → Nat × Nat × Nat × Nat × Nat → Nat × Nat × Nat × Nat × Nat
  | _, [], st => st
  | i, w :: ws, (a, b, c, d, e) =>
      sha1Rounds (i + 1) ws
        ((rotl 5 a + sha1F i b c d + e + sha1K i + w) % w32, a, rotl 30 b, c, d)

/-- Compress one 16-word block into the running SHA-1 state. -/
def sha1Block (st : Nat × Nat × Nat × Nat × Nat) (block : List Nat) : Nat × Nat × Nat × Nat × Nat :=
  match st, sha1Rounds 0 (sha1Schedule block) st with
  | (h0, h1, h2, h3, h4), (a, b, c, d, e) =>
      (add32 h0 a, add32 h1 b, add32 h2 c, add32 h3 d, add32 h4 e)

/-- The five final SHA-1 state words as 20 bytes. -/
def sha1Out (st : Nat × Nat × Nat × Nat × Nat) : List Nat :=
  wordsToBytes [st.1, st.2.1, st.2.2.1, st.2.2.2.1, st.2.2.2.2]

/-- SHA-1 of a byte sequence, as 20 bytes. -/
def sha1Bytes (msg : List Nat) : List Nat :=
  let padded := padMessage msg
  let ws := bytesToWords padded
  sha1Out ((chunks16 ws.length ws).foldl sha1Block
    (1732584193, 4023233417, 2562383102, 271733878, 3285377520))

/-- The 64 SHA-256 round constants. -/
def sha256K : List Nat :=
  [1116352408, 1899447441, 3049323471, 3921009573, 961987163, 1508970993, 2453635748, 2870763221,
   3624381080, 310598401, 607225278, 1426881987, 1925078388, 2162078206, 2614888103, 3248222580,
   3835390401, 4022224774, 264347078, 604807628, 770255983, 1249150122, 1555081692, 1996064986,
   2554220882, 2821834349, 2952996808, 3210313671, 3336571891, 3584528711, 113926993, 338241895,
   666307205, 773529912, 1294757372, 1396182291, 1695183700, 1986661051, 2177026350, 2456956037,
   2730485921, 2820302411, 3259730800, 3345764771, 3516065817, 3600352804, 4094571909, 275423344,
   430227734, 506948616, 659060556, 883997877, 958139571, 1322822218, 1537002063, 1747873779,
   1955562222, 2024104815, 2227730452, 2361852424, 2428436474, 2756734187, 3204031479, 3329325298]

/-- SHA-256 small sigma 0. -/
def sha256s0 (x : Nat) : Nat := (rotr 7 x ^^^ rotr 18 x) ^^^ (x >>> 3)

/-- SHA-256 small sigma 1. -/
def sha256s1 (x : Nat) : Nat := (rotr 17 x ^^^ rotr 19 x) ^^^ (x >>> 10)

/-- Extend the 16 schedule words to 64, reversed list (newest first):
`w[i-2]`, `w[i-7]`, `w[i-15]`, `w[i-16]` sit at indices 1, 6, 14, 15. -/
def sha256ExtendRev : Nat → List Nat → List Nat
  | 0, ws => ws
  | n + 1, ws =>
      sha256ExtendRev n
        ((sha256s1 (ws.getD 1 0) + ws.getD 6 0 + sha256s0 (ws.getD 14 0) + ws.getD 15 0) % w32 :: ws)

/-- The 64 SHA-256 message-schedule words of one 16-word block. -/
def sha256Schedule (block : List Nat) : List Nat :=
  (sha256ExtendRev 48 block.reverse).reverse

/-- State for SHA-256 compression: the eight working registers. -/
structure Sha256St where
  a : Nat
  b : Nat
  c : Nat
  d : Nat
  e : Nat
  f : Nat
  g : Nat
  h : Nat
deriving DecidableEq

/-- One pass over the zipped (constant, schedule word) list. -/
def sha256Rounds : List (Nat × Nat) → Sha256St → Sha256St
  | [], st => st
  | (k, w) :: rest, st =>
      let S1 := (rotr 6 st.e ^^^ rotr 11 st.e) ^^^ rotr 25 st.e
      let ch := (st.e &&& st.f) ^^^ (not32 st.e &&& st.g)
      let temp1 := (st.h + S1 + ch + k + w) % w32
      let S0 := (rotr 2 st.a ^^^ rotr 13 st.a) ^^^ rotr 22 st.a
      let maj := ((st.a &&& st.b) ^^^ (st.a &&& st.c)) ^^^ (st.b &&& st.c)
      let temp2 := (S0 + maj) % w32
      sha256Rounds rest
        ⟨(temp1 + temp2) % w32, st.a, st.b, st.c, (st.d + temp1) % w32, st.e, st.f, st.g⟩

/-- Compress one 16-word block into the running SHA-256 state. -/
def sha256Block (hs : List Nat) (block : List Nat) : List Nat :=
  let st := sha256Rounds (sha256K.zip (sha256Schedule block))
    ⟨hs.getD 0 0, hs.getD 1 0, hs.getD 2 0, hs.getD 3 0,
     hs.getD 4 0, hs.getD 5 0, hs.getD 6 0, hs.getD 7 0⟩
  [add32 (hs.getD 0 0) st.a, add32 (hs.getD 1 0) st.b, add32 (hs.getD 2 0) st.c,
   add32 (hs.getD 3 0) st.d, add32 (hs.getD 4 0) st.e, add32 (hs.getD 5 0) st.f,
   add32 (hs.getD 6 0) st.g, add32 (hs.getD 7 0) st.h]

/-- SHA-256 of a byte sequence, as 32 bytes. -/
def sha256Bytes (msg : List Nat) : List Nat :=
  let padded := padMessage msg
  let ws := bytesToWords padded
  wordsToBytes ((chunks16 ws.length ws).foldl sha256Block
    [1779033703, 3144134277, 1013904242, 2773480762,
     1359893119, 2600822924, 528734635, 1541459225])

/-- Lowercase hex digit for a value `< 16` (Go `encoding/hex` digits). -/
def hexChar (n : Nat) : Char :=
  if n < 10 then Char.ofNat (48 + n) else Char.ofNat (87 + n)

/-- Lowercase hex encoding of a byte list (Go `hex.EncodeToString`). -/
def hexEncode (bytes : List Nat) : String :=
  String.mk (bytes.flatMap (fun b => [hexChar (b / 16), hexChar (b % 16)]))

/-- Value of one hex digit, accepting both cases
(Go `encoding/hex.fromHexChar`). -/
def hexDigitVal (c : Char) : Option Nat :=
  if 48 ≤ c.toNat ∧ c.toNat ≤ 57 then some (c.toNat - 48)
  else if 97 ≤ c.toNat ∧ c.toNat ≤ 102 then some (c.toNat - 87)
  else if 65 ≤ c.toNat ∧ c.toNat ≤ 70 then some (c.toNat - 55)
  else none

/-- Go `hex.DecodeString` on the character sequence: digits are consumed
in pairs; an odd tail or a non-hex character fails. -/
def hexDecodeList : List Char → Option (List Nat)
  | [] => some []
  | [_] => none
  | a :: b :: rest =>
      match hexDigitVal a, hexDigitVal b, hexDecodeList rest with
      | some hi, some lo, some tl => some ((hi * 16 + lo) :: tl)
      | _, _, _ => none

/-- Go `hex.DecodeString` on a string. -/
def hexDecode (s : String) : Option (List Nat) := hexDecodeList s.data

/-- UTF-8 encoding of one character (code points below 0x80, 0x800,
0x10000 and the rest; `Char` excludes surrogates). -/
def charUtf8 (c : Char) : List Nat :=
  let n := c.toNat
  if n < 128 then [n]
  else if n < 2048 then [192 ||| (n >>> 6), 128 ||| (n &&& 63)]
  else if n < 65536 then
    [224 ||| (n >>> 12), 128 ||| ((n >>> 6) &&& 63), 128 ||| (n &&& 63)]
  else
    [240 ||| (n >>> 18), 128 ||| ((n >>> 12) &&& 63),
     128 ||| ((n >>> 6) &&& 63), 128 ||| (n &&& 63)]

/-- The UTF-8 bytes of a string: what a Go `string` really is. -/
def utf8Bytes (s : String) : List Nat := s.data.flatMap charUtf8

/-- Go `len` of a string: its UTF-8 byte count. -/
def goLength (s : String) : Nat := (utf8Bytes s).length

/-- The two digest algorithms an `omniBor` tree can be configured with
(`hashType` field, set by `NewSha1OmniBOR` / `NewSha256OmniBOR`). -/
inductive HashAlg
  | sha1
  | sha256
deriving DecidableEq

/-- Dispatch of the configured digest over a byte sequence. -/
def algHash : HashAlg → List Nat → List Nat
  | .sha1 => sha1Bytes
  | .sha256 => sha256Bytes

/-- `reference` from omnibor.go: a content identity (hex string) plus the
optional bom.  Go's `bom Identifier` interface value is observable only
through `Identity() string`, so it is embedded as that string. -/
structure Ref where
  identity : String
  bom : Option String
deriving DecidableEq

/-- `omniBor` from omnibor.go: the configured digest plus the slice of
references in insertion order (the mutex is dropped; this is the
sequential semantics). -/
structure OmniBor where
  hashType : HashAlg
  gitRefs : List Ref
deriving DecidableEq

/-- `NewSha1OmniBOR`: fresh empty tree in SHA-1 mode. -/
def NewSha1OmniBOR : OmniBor := ⟨.sha1, []⟩

/-- `NewSha256OmniBOR`: fresh empty tree in SHA-256 mode. -/
def NewSha256OmniBOR : OmniBor := ⟨.sha256, []⟩

/-- Lexicographic comparison of character sequences by code point — Go's
byte-wise `<`/`≤` on the UTF-8 encodings induces exactly this order,
since UTF-8 is monotone in code points. -/
def lexLe : List Char → List Char → Bool
  | [], _ => true
  | _ :: _, [] => false
  | a :: as, b :: bs =>
      if a.toNat < b.toNat then true
      else if b.toNat < a.toNat then false
      else lexLe as bs

/-- `referenceSorter` orders references by `Identity()`; the sort keeps
insertion order on equal keys (Go's `sort.Sort` runs a stable insertion
sort on the short slices at issue), so we sort with the non-strict
relation. -/
def RefLe (r1 r2 : Ref) : Prop := lexLe r1.identity.data r2.identity.data = true

instance : DecidableRel RefLe := fun r1 r2 => by
  unfold RefLe; infer_instance

/-- The error values `generateGitHash` can return
(src/pkg/cmd/gitbom_cmd.go): a short read (fewer bytes than declared)
or a long read (more bytes than declared). -/
inductive GitHashError
  | shortRead
  | longRead
deriving DecidableEq

/-- `generateGitHash` from src/pkg/cmd/gitbom_cmd.go: every configured
hasher absorbs the header `"blob " ++ decimal length ++ NUL` and then the
whole stream; a stream shorter than the declared length fails with
`shortRead`, a longer one with `longRead`; on success the hex digests are
joined with `"+"`.  The reader is embedded as the full byte sequence it
yields before end-of-input; `length` keeps Go's `int64` signedness. -/
def generateGitHash (stream : List Nat) (length : Int) (hashAlgorithm : List HashAlg) :
    Except GitHashError String :=
  if (stream.length : Int) < length then .error .shortRead
  else if length < (stream.length : Int) then .error .longRead
  else .ok (String.intercalate "+"
    (hashAlgorithm.map fun v =>
      hexEncode (algHash v ((utf8Bytes ("blob " ++ toString length) ++ [0]) ++ stream))))

/-- The content identity of an in-memory byte sequence under one
algorithm: hex of the digest of `"blob " ++ decimal len ++ NUL ++ content`
(what `gitoid.New` and the success path of `generateGitHash` compute). -/
def gitHashOf (alg : HashAlg) (content : List Nat) : String :=
  hexEncode (algHash alg ((utf8Bytes ("blob " ++ toString content.length) ++ [0]) ++ content))

/-- `(*omniBor).addGitRef` from omnibor.go: hash the stream against the
declared length with the tree's configured algorithm (`gitoid.New` with
the content-length option computes the same gitoid as the repository's
`generateGitHash` at a single algorithm), then append the new reference —
the slice is appended unconditionally, with no duplicate check. -/
def addGitRef (srv : OmniBor) (reader : List Nat) (bom : Option String) (length : Int) :
    Except GitHashError OmniBor :=
  match generateGitHash reader length [srv.hashType] with
  | .error e => .error e
  | .ok identity => .ok { srv with gitRefs := srv.gitRefs ++ [⟨identity, bom⟩] }

/-- `(*omniBor).AddReference`: add an in-memory byte sequence, declaring
its own length. -/
def AddReference (srv : OmniBor) (obj : List Nat) (bom : Option String) :
    Except GitHashError OmniBor :=
  addGitRef srv obj bom (obj.length : Int)

/-- `(*omniBor).AddReferenceFromReader`: add from a stream against a
caller-declared length. -/
def AddReferenceFromReader (srv : OmniBor) (reader : List Nat) (bom : Option String)
    (objLength : Int) : Except GitHashError OmniBor :=
  addGitRef srv reader bom objLength

/-- The error values `AddExistingReference` can return: a wrong-length
input, or one `hex.DecodeString` rejects. -/
inductive AddExistingError
  | invalidHashLength (n : Nat)
  | invalidHex
deriving DecidableEq

/-- `(*omniBor).AddExistingReference`: the input must have the configured
digest's hex length (40 for sha1, 64 for sha256, in Go bytes) and must
hex-decode; an identity already present leaves the tree unchanged,
otherwise a bom-less reference is appended. -/
def AddExistingReference (srv : OmniBor) (input : String) : Except AddExistingError OmniBor :=
  let hashLength := if srv.hashType = .sha256 then 64 else 40
  if goLength input ≠ hashLength then .error (.invalidHashLength (goLength input))
  else if (hexDecode input).isNone then .error .invalidHex
  else if srv.gitRefs.any (fun existingRef => existingRef.identity = input) then .ok srv
  else .ok { srv with gitRefs := srv.gitRefs ++ [⟨input, none⟩] }

/-- `(reference).String()`: `"blob " ++ identity`, extended with
`" bom " ++ bom.Identity()` when a bom is attached, then `"\n"`. -/
def refString (ref : Ref) : String :=
  (match ref.bom with
   | some b => "blob " ++ ref.identity ++ " bom " ++ b
   | none => "blob " ++ ref.identity) ++ "\n"

/-- `(*omniBor).References`: the references sorted ascending by
identity. -/
def References (srv : OmniBor) : List Ref :=
  List.insertionSort RefLe srv.gitRefs

/-- `(*omniBor).String`: concatenation (separator `""`) of the entry
strings of the references sorted ascending by identity. -/
def treeString (srv : OmniBor) : String :=
  String.join ((List.insertionSort RefLe srv.gitRefs).map refString)

/-- `(*omniBor).gitRef`: the gitoid of the serialized tree, under the
tree's own configured algorithm and the serialization's byte length. -/
def gitRef (srv : OmniBor) : String :=
  gitHashOf srv.hashType (utf8Bytes (treeString srv))

/-- `(*omniBor).Identity`: delegates to `gitRef`, so it is recomputed
from the current contents on every call. -/
def Identity (srv : OmniBor) : String := gitRef srv

/-- `NewIdentifier` from omnibor.go: succeeds exactly when
`hex.DecodeString` does, wrapping the input unchanged (the returned
identifier's `Identity()` is the stored string). -/
def NewIdentifier (identity : String) : Option String :=
  match hexDecode identity with
  | none => none
  | some _ => some identity

/-- `(reference).Bom()` from omnibor.go reads
`func (ref reference) Bom() Identifier { return ref.Bom() }` — the body
re-invokes the same method on the same receiver and never reads the
`bom` field.  `fuel` bounds the call stack; `none` means no value is
produced within that many frames. -/
def BomFuel : Nat → Ref → Option (Option String)
  | 0, _ => none
  | n + 1, ref => BomFuel n ref

/-- Fold a list of `(content, bom)` pairs into a fresh tree through
`AddReference` (which always succeeds on in-memory content, see
`AddReference_ok`). -/
def buildTree (alg : HashAlg) (pairs : List (List Nat × Option String)) : OmniBor :=
  pairs.foldl
    (fun t p => match AddReference t p.1 p.2 with | .ok t2 => t2 | .error _ => t)
    ⟨alg, []⟩

/-- Validation of the SHA-1 embedding against the standard `"abc"`
vector. -/
theorem sha1_abc_vector : hexEncode (sha1Bytes (utf8Bytes "abc")) =
    "a9993e364706816aba3e25717850c26c9cd0d89d" := by decide

/-- Validation of the SHA-256 embedding against the standard `"abc"`
vector. -/
theorem sha256_abc_vector : hexEncode (sha256Bytes (utf8Bytes "abc")) =
    "ba7816bf8f01cfea414140de5dae2223b00361a396177a9cb410ff61f20015ad" := by decide

/-- `lexLe` is reflexive. -/
theorem lexLe_refl : ∀ l : List Char, lexLe l l = true := by
  intro l
  induction l with
  | nil => rfl
  | cons a as ih => simp [lexLe, ih]

/-- `lexLe` is total. -/
theorem lexLe_total : ∀ l1 l2 : List Char, lexLe l1 l2 = true ∨ lexLe l2 l1 = true := by
  intro l1
  induction l1 with
  | nil => intro l2; left; rfl
  | cons a as ih =>
    intro l2
    cases l2 with
    | nil => right; rfl
    | cons b bs =>
      by_cases hab : a.toNat < b.toNat
      · left; simp [lexLe, hab]
      · by_cases hba : b.toNat < a.toNat
        · right; simp [lexLe, hba]
        · rcases ih bs with h | h
          · left; simp [lexLe, hab, hba, h]
          · right; simp [lexLe, hab, hba, h]

/-- `lexLe` is transitive. -/
theorem lexLe_trans : ∀ l1 l2 l3 : List Char,
    lexLe l1 l2 = true → lexLe l2 l3 = true → lexLe l1 l3 = true := by
  intro l1
  induction l1 with
  | nil => intro l2 l3 _ _; rfl
  | cons a as ih =>
    intro l2 l3 h12 h23
    cases l2 with
    | nil => simp [lexLe] at h12
    | cons b bs =>
      cases l3 with
      | nil => simp [lexLe] at h23
      | cons c cs =>
        simp only [lexLe] at h12 h23 ⊢
        by_cases hab : a.toNat < b.toNat
        · by_cases hbc : b.toNat < c.toNat
          · simp [Nat.lt_trans hab hbc]
          · by_cases hcb : c.toNat < b.toNat
            · simp [hbc, hcb] at h23
            · have hbc2 : b.toNat = c.toNat := Nat.le_antisymm (Nat.le_of_not_lt hcb) (Nat.le_of_not_lt hbc)
              simp [hbc2 ▸ hab]
        · by_cases hba : b.toNat < a.toNat
          · simp [hab, hba] at h12
          · have hab2 : a.toNat = b.toNat := Nat.le_antisymm (Nat.le_of_not_lt hba) (Nat.le_of_not_lt hab)
            simp [hab, hba] at h12
            by_cases hbc : b.toNat < c.toNat
            · simp [hab2 ▸ hbc]
            · by_cases hcb : c.toNat < b.toNat
              · simp [hbc, hcb] at h23
              · simp [hbc, hcb] at h23
                simp [hab2 ▸ hbc, hab2 ▸ hcb, ih bs cs h12 h23]

/-- `lexLe` is antisymmetric. -/
theorem lexLe_antisymm : ∀ l1 l2 : List Char,
    lexLe l1 l2 = true → lexLe l2 l1 = true → l1 = l2 := by
  intro l1
  induction l1 with
  | nil =>
    intro l2 _ h21
    cases l2 with
    | nil => rfl
    | cons b bs => simp [lexLe] at h21
  | cons a as ih =>
    intro l2 h12 h21
    cases l2 with
    | nil => simp [lexLe] at h12
    | cons b bs =>
      simp only [lexLe] at h12 h21
      by_cases hab : a.toNat < b.toNat
      · simp [hab, Nat.lt_asymm hab] at h21
      · by_cases hba : b.toNat < a.toNat
        · simp [hab, hba] at h12
        · have hn : a.toNat = b.toNat := Nat.le_antisymm (Nat.le_of_not_lt hba) (Nat.le_of_not_lt hab)
          have hc : a = b := by
            have := congrArg Char.ofNat hn
            rwa [Char.ofNat_toNat, Char.ofNat_toNat] at this
          simp [hab, hba] at h12 h21
          rw [hc, ih bs h12 h21]

instance : IsTotal Ref RefLe := ⟨fun r1 r2 => lexLe_total r1.identity.data r2.identity.data⟩

instance : IsTrans Ref RefLe :=
  ⟨fun r1 r2 r3 h1 h2 => lexLe_trans r1.identity.data r2.identity.data r3.identity.data h1 h2⟩

instance : IsRefl Ref RefLe := ⟨fun r => lexLe_refl r.identity.data⟩

/-- `RefLe` both ways forces equal identity strings. -/
theorem refLe_antisymm_identity {r1 r2 : Ref} (h1 : RefLe r1 r2) (h2 : RefLe r2 r1) :
    r1.identity = r2.identity :=
  String.ext (lexLe_antisymm r1.identity.data r2.identity.data h1 h2)

/-- Two sorted reference lists that are permutations of each other and
have pairwise distinct identities are equal. -/
theorem sorted_perm_eq : ∀ {l1 l2 : List Ref}, l1.Perm l2 →
    List.Sorted RefLe l1 → List.Sorted RefLe l2 →
    List.Pairwise (fun a b => a.identity ≠ b.identity) l1 → l1 = l2 := by
  intro l1
  induction l1 with
  | nil =>
    intro l2 hp _ _ _
    exact (hp.symm.eq_nil).symm
  | cons a as ih =>
    intro l2 hp hs1 hs2 hd
    cases l2 with
    | nil => exact absurd hp.eq_nil (by simp)
    | cons b bs =>
      have hamem : a ∈ b :: bs := hp.subset (List.mem_cons_self a as)
      have hbmem : b ∈ a :: as := hp.symm.subset (List.mem_cons_self b bs)
      have hab : RefLe a b := by
        rcases List.mem_cons.mp hbmem with h | h
        · exact h ▸ refl_of RefLe a
        · exact (List.sorted_cons.mp hs1).1 b h
      have hba : RefLe b a := by
        rcases List.mem_cons.mp hamem with h | h
        · exact h ▸ refl_of RefLe b
        · exact (List.sorted_cons.mp hs2).1 a h
      have hid : a.identity = b.identity := refLe_antisymm_identity hab hba
      have heq : a = b := by
        rcases List.mem_cons.mp hbmem with h | h
        · exact h.symm
        · exact absurd hid ((List.pairwise_cons.mp hd).1 b h)
      subst heq
      have htl : as.Perm bs := hp.cons_inv
      rw [ih htl (List.sorted_cons.mp hs1).2 (List.sorted_cons.mp hs2).2
        (List.pairwise_cons.mp hd).2]

/-- Joining one hex digest: `strings.Join` of a singleton is the
element. -/
theorem intercalate_single (x : String) : String.intercalate "+" [x] = x := by
  simp [String.intercalate, String.intercalate.go]

/-- `AddReference` on in-memory content always succeeds (the declared
length is the content's own length) and appends exactly one reference
carrying the content identity and the given bom. -/
theorem AddReference_ok (srv : OmniBor) (obj : List Nat) (bom : Option String) :
    AddReference srv obj bom =
      .ok { srv with gitRefs := srv.gitRefs ++ [⟨gitHashOf srv.hashType obj, bom⟩] } := by
  unfold AddReference addGitRef generateGitHash
  simp only [lt_irrefl, if_false, List.map_cons, List.map_nil, intercalate_single]
  rfl

/-- Unfolding `buildTree`: the accumulated references are the pairs,
mapped to references in order, appended to the start state. -/
theorem buildTree_aux : ∀ (pairs : List (List Nat × Option String)) (t : OmniBor),
    pairs.foldl
        (fun t p => match AddReference t p.1 p.2 with | .ok t2 => t2 | .error _ => t) t =
      { hashType := t.hashType,
        gitRefs := t.gitRefs ++ pairs.map (fun p => ⟨gitHashOf t.hashType p.1, p.2⟩) } := by
  intro pairs
  induction pairs with
  | nil => intro t; simp
  | cons p ps ih =>
    intro t
    rw [List.foldl_cons]
    have hstep : (match AddReference t p.1 p.2 with
        | Except.ok t2 => t2
        | Except.error _ => t) =
        { hashType := t.hashType,
          gitRefs := t.gitRefs ++ [⟨gitHashOf t.hashType p.1, p.2⟩] } := by
      rw [AddReference_ok]
    rw [hstep, ih]
    simp

/-- The references of a built tree, in insertion order. -/
theorem buildTree_gitRefs (alg : HashAlg) (pairs : List (List Nat × Option String)) :
    (buildTree alg pairs).gitRefs =
      pairs.map (fun p => ⟨gitHashOf alg p.1, p.2⟩) := by
  unfold buildTree
  rw [buildTree_aux]
  simp

/-- A built tree keeps the configured algorithm. -/
theorem buildTree_hashType (alg : HashAlg) (pairs : List (List Nat × Option String)) :
    (buildTree alg pairs).hashType = alg := by
  unfold buildTree
  rw [buildTree_aux]

/-- Serialized words are genuine bytes. -/
theorem wordsToBytes_lt (ws : List Nat) : ∀ b ∈ wordsToBytes ws, b < 256 := by
  intro b hb
  rcases List.mem_flatMap.mp hb with ⟨w, _, hw⟩
  simp only [wordToBytes, List.mem_cons, List.not_mem_nil, or_false] at hw
  rcases hw with h | h | h | h <;>
    exact h ▸ Nat.lt_succ_of_le Nat.and_le_right

/-- Both digests produce genuine bytes. -/
theorem algHash_lt (alg : HashAlg) (msg : List Nat) : ∀ b ∈ algHash alg msg, b < 256 := by
  cases alg with
  | sha1 => exact wordsToBytes_lt _
  | sha256 => exact wordsToBytes_lt _

/-- Hex digits of values below 16 are lowercase hex characters. -/
theorem hexChar_mem : ∀ n < 16, hexChar n ∈ ("0123456789abcdef").data := by decide

/-- Hex encoding of genuine bytes uses only lowercase hex characters. -/
theorem hexEncode_lower (bytes : List Nat) (hb : ∀ b ∈ bytes, b < 256) :
    ∀ c ∈ (hexEncode bytes).data, c ∈ ("0123456789abcdef").data := by
  intro c hc
  have hdata : (hexEncode bytes).data =
      bytes.flatMap (fun b => [hexChar (b / 16), hexChar (b % 16)]) := rfl
  rw [hdata] at hc
  rcases List.mem_flatMap.mp hc with ⟨b, hbm, hcb⟩
  simp only [List.mem_cons, List.not_mem_nil, or_false] at hcb
  rcases hcb with h | h
  · exact h ▸ hexChar_mem (b / 16) (Nat.div_lt_of_lt_mul (hb b hbm))
  · exact h ▸ hexChar_mem (b % 16) (Nat.mod_lt b (by norm_num))

/-- C4 counterexample.  The claim's concrete vector is wrong: under
SHA-1 the content `"hello"` has identity `b6fc4c62…`, not `04fea064…` —
the latter is the identity of `"world"` (the spec read the first line of
the sorted two-entry serialization as belonging to `"hello"`, but
`"world"`'s digest happens to sort first). -/
theorem C4_hello_vector_false :
    gitHashOf .sha1 (utf8Bytes "hello") = "b6fc4c620b67d95f953a5c1c1230aaab5db5a1b0"
    ∧ gitHashOf .sha1 (utf8Bytes "hello") ≠ "04fea06420ca60892f73becee3614f6d023a4b7f"
    ∧ gitHashOf .sha1 (utf8Bytes "world") = "04fea06420ca60892f73becee3614f6d023a4b7f" := by
  exact ⟨by decide, by decide, by decide⟩

/-- C4 (corrected).  The content identity of an in-memory byte sequence
of length `L` is the lowercase hex digest of
`"blob " ++ decimal L ++ NUL ++ content`: the streaming hasher at the
exact declared length produces precisely `gitHashOf`; `gitHashOf` is the
hex of the digest of the header-prefixed bytes; every character of the
result is a lowercase hex digit.  The concrete SHA-1 vector for
`"hello"` is `b6fc4c62…` (the claim's `04fea064…` belongs to
`"world"`). -/
theorem C4_content_identity :
    (∀ (alg : HashAlg) (content : List Nat),
      generateGitHash content (content.length : Int) [alg] = .ok (gitHashOf alg content))
    ∧ (∀ (alg : HashAlg) (content : List Nat),
        gitHashOf alg content =
          hexEncode (algHash alg ((utf8Bytes ("blob " ++ toString content.length) ++ [0]) ++ content)))
    ∧ (∀ (alg : HashAlg) (content : List Nat),
        ∀ c ∈ (gitHashOf alg content).data, c ∈ ("0123456789abcdef").data)
    ∧ gitHashOf .sha1 (utf8Bytes "hello") = "b6fc4c620b67d95f953a5c1c1230aaab5db5a1b0" := by
  refine ⟨?_, ?_, ?_, by decide⟩
  · intro alg content
    unfold generateGitHash
    simp only [lt_irrefl, if_false, List.map_cons, List.map_nil, intercalate_single]
    rfl
  · intro alg content
    rfl
  · intro alg content
    exact hexEncode_lower _ (algHash_lt alg _)

/-- C4 witness: the SHA-1 streaming identity of `"hello"` at declared
length 5, and a lowercase hex digit of its identity, at concrete
inputs. -/
theorem C4_content_identity_witness :
    generateGitHash (utf8Bytes "hello") ((utf8Bytes "hello").length : Int) [.sha1] =
      .ok (gitHashOf .sha1 (utf8Bytes "hello"))
    ∧ ('b' ∈ (gitHashOf .sha1 (utf8Bytes "hello")).data ∧ 'b' ∈ ("0123456789abcdef").data) :=
  ⟨C4_content_identity.1 .sha1 (utf8Bytes "hello"),
   by decide, C4_content_identity.2.2.1 .sha1 (utf8Bytes "hello") 'b' (by decide)⟩

/-- C3 (confirmed).  `Identity` is the content identity, under the
tree's own algorithm, of the exact serialization `treeString`; and the
SHA-1 tree holding `"hello"` and `"world"` serializes to the spec's two
sorted lines and has the spec's identity. -/
theorem C3_tree_identity :
    (∀ srv : OmniBor, Identity srv = gitHashOf srv.hashType (utf8Bytes (treeString srv)))
    ∧ treeString (buildTree .sha1 [(utf8Bytes "hello", none), (utf8Bytes "world", none)]) =
        "blob 04fea06420ca60892f73becee3614f6d023a4b7f\nblob b6fc4c620b67d95f953a5c1c1230aaab5db5a1b0\n"
    ∧ Identity (buildTree .sha1 [(utf8Bytes "hello", none), (utf8Bytes "world", none)]) =
        "dc0be356e8c2ba26e66448d97db76ad050206574" := by
  exact ⟨fun srv => rfl, by decide, by decide⟩

/-- C5 (confirmed).  `treeString` prints exactly one entry per
reference (the sorted list is a permutation of the stored one), in
ascending lexicographic identity order, each entry of the shape
`"blob " ++ identity (++ " bom " ++ bom) ++ "\n"`, concatenated with no
other separator; the empty tree prints `""`. -/
theorem C5_serialization (srv : OmniBor) :
    (References srv).Perm srv.gitRefs
    ∧ List.Sorted RefLe (References srv)
    ∧ treeString srv = String.join ((References srv).map refString)
    ∧ (∀ ref : Ref, refString ref =
        "blob " ++ ref.identity ++
          (match ref.bom with | some b => " bom " ++ b | none => "") ++ "\n")
    ∧ treeString ⟨srv.hashType, []⟩ = "" := by
  refine ⟨List.perm_insertionSort RefLe srv.gitRefs,
    List.sorted_insertionSort RefLe srv.gitRefs, rfl, ?_, rfl⟩
  intro ref
  cases h : ref.bom <;> simp [refString, h, String.append_assoc]

/-- C9 (code bug).  `reference.Bom()` is `return ref.Bom()`: the method
re-invokes itself on the same receiver, so no call stack depth produces
a value — the method never terminates. -/
theorem C9_bom_diverges : ∀ (fuel : Nat) (ref : Ref), BomFuel fuel ref = none := by
  intro fuel
  induction fuel with
  | zero => intro ref; rfl
  | succ n ih => intro ref; exact ih ref

/-- C1 (code bug).  `addGitRef` appends unconditionally: adding the
content `"hello"` twice to a fresh SHA-1 tree leaves TWO references with
the same identity, the second keeping its own bom, and the serialization
prints two lines — not the documented idempotent insert. -/
theorem C1_duplicate_appended :
    (buildTree .sha1 [(utf8Bytes "hello", none), (utf8Bytes "hello", some "1234")]).gitRefs =
      [⟨"b6fc4c620b67d95f953a5c1c1230aaab5db5a1b0", none⟩,
       ⟨"b6fc4c620b67d95f953a5c1c1230aaab5db5a1b0", some "1234"⟩]
    ∧ treeString (buildTree .sha1 [(utf8Bytes "hello", none), (utf8Bytes "hello", some "1234")]) =
      "blob b6fc4c620b67d95f953a5c1c1230aaab5db5a1b0\nblob b6fc4c620b67d95f953a5c1c1230aaab5db5a1b0 bom 1234\n" := by
  exact ⟨by decide, by decide⟩

/-- C2 counterexample.  The two insertion orders of the set
`{("hello", bom "aa"), ("hello", bom "bb")}` are permutations of each
other, yet the resulting trees serialize differently and have different
identities: insertion order shows through for equal content with
distinct boms. -/
theorem C2_order_dependent_cex :
    ([((utf8Bytes "hello" : List Nat), (some "aa" : Option String)), (utf8Bytes "hello", some "bb")]).Perm
      [(utf8Bytes "hello", some "bb"), (utf8Bytes "hello", some "aa")]
    ∧ treeString (buildTree .sha1 [(utf8Bytes "hello", some "aa"), (utf8Bytes "hello", some "bb")]) ≠
      treeString (buildTree .sha1 [(utf8Bytes "hello", some "bb"), (utf8Bytes "hello", some "aa")])
    ∧ Identity (buildTree .sha1 [(utf8Bytes "hello", some "aa"), (utf8Bytes "hello", some "bb")]) ≠
      Identity (buildTree .sha1 [(utf8Bytes "hello", some "bb"), (utf8Bytes "hello", some "aa")]) := by
  exact ⟨by decide, by decide, by decide⟩

/-- C2 (corrected).  Order independence holds for every set of pairs
whose content identities are pairwise distinct: permuting the insertion
order leaves both the serialization and the identity unchanged. -/
theorem C2_order_independence :
    ∀ (alg : HashAlg) (l1 l2 : List (List Nat × Option String)),
      l1.Perm l2 →
      List.Pairwise (fun p q => gitHashOf alg p.1 ≠ gitHashOf alg q.1) l1 →
      treeString (buildTree alg l1) = treeString (buildTree alg l2)
      ∧ Identity (buildTree alg l1) = Identity (buildTree alg l2) := by
  intro alg l1 l2 hp hd
  have h1 := buildTree_gitRefs alg l1
  have h2 := buildTree_gitRefs alg l2
  have hrefs : (l1.map (fun p => (⟨gitHashOf alg p.1, p.2⟩ : Ref))).Perm
      (l2.map (fun p => (⟨gitHashOf alg p.1, p.2⟩ : Ref))) := hp.map _
  have hdm : List.Pairwise (fun a b : Ref => a.identity ≠ b.identity)
      (l1.map (fun p => (⟨gitHashOf alg p.1, p.2⟩ : Ref))) :=
    List.pairwise_map.mpr hd
  have hsorteq :
      List.insertionSort RefLe (l1.map (fun p => (⟨gitHashOf alg p.1, p.2⟩ : Ref))) =
      List.insertionSort RefLe (l2.map (fun p => (⟨gitHashOf alg p.1, p.2⟩ : Ref))) := by
    apply sorted_perm_eq
    · exact (List.perm_insertionSort RefLe _).trans
        (hrefs.trans (List.perm_insertionSort RefLe _).symm)
    · exact List.sorted_insertionSort RefLe _
    · exact List.sorted_insertionSort RefLe _
    · exact ((List.perm_insertionSort RefLe _).pairwise_iff
        (fun h => fun heq => h heq.symm)).mpr hdm
  have hts : treeString (buildTree alg l1) = treeString (buildTree alg l2) := by
    unfold treeString
    rw [h1, h2, hsorteq]
  refine ⟨hts, ?_⟩
  unfold Identity gitRef
  rw [buildTree_hashType, buildTree_hashType, hts]

/-- C2 witness: adding `"hello"` and `"world"` (distinct identities) in
the two orders gives the same serialization and identity. -/
theorem C2_order_independence_witness :
    treeString (buildTree .sha1 [(utf8Bytes "hello", none), (utf8Bytes "world", none)]) =
      treeString (buildTree .sha1 [(utf8Bytes "world", none), (utf8Bytes "hello", none)])
    ∧ Identity (buildTree .sha1 [(utf8Bytes "hello", none), (utf8Bytes "world", none)]) =
      Identity (buildTree .sha1 [(utf8Bytes "world", none), (utf8Bytes "hello", none)]) :=
  C2_order_independence .sha1
    [(utf8Bytes "hello", none), (utf8Bytes "world", none)]
    [(utf8Bytes "world", none), (utf8Bytes "hello", none)]
    (by decide) (by decide)

/-- C6 (confirmed).  The streaming hasher fails with `shortRead` when
the stream yields fewer bytes than declared and with `longRead` when it
yields more; at the exact declared length it succeeds; accordingly
`AddReferenceFromReader` returns an error and no new tree on any
mismatch, and on the exact length appends exactly the one new
reference. -/
theorem C6_length_mismatch (stream : List Nat) (length : Int) (algs : List HashAlg)
    (srv : OmniBor) (bom : Option String) :
    ((stream.length : Int) < length → generateGitHash stream length algs = .error .shortRead)
    ∧ (length < (stream.length : Int) → generateGitHash stream length algs = .error .longRead)
    ∧ ((stream.length : Int) = length →
        generateGitHash stream length algs = .ok (String.intercalate "+"
          (algs.map fun v =>
            hexEncode (algHash v ((utf8Bytes ("blob " ++ toString length) ++ [0]) ++ stream)))))
    ∧ ((stream.length : Int) ≠ length →
        ∃ e, AddReferenceFromReader srv stream bom length = .error e)
    ∧ ((stream.length : Int) = length →
        AddReferenceFromReader srv stream bom length =
          .ok { srv with gitRefs := srv.gitRefs ++ [⟨gitHashOf srv.hashType stream, bom⟩] }) := by
  have hshort : (stream.length : Int) < length →
      ∀ algs2 : List HashAlg, generateGitHash stream length algs2 = .error .shortRead := by
    intro h algs2
    unfold generateGitHash
    rw [if_pos h]
  have hlong : length < (stream.length : Int) →
      ∀ algs2 : List HashAlg, generateGitHash stream length algs2 = .error .longRead := by
    intro h algs2
    unfold generateGitHash
    rw [if_neg (lt_asymm h), if_pos h]
  refine ⟨fun h => hshort h algs, fun h => hlong h algs, ?_, ?_, ?_⟩
  · intro h
    unfold generateGitHash
    rw [if_neg (h ▸ lt_irrefl _), if_neg (h ▸ lt_irrefl _)]
  · intro h
    rcases lt_or_gt_of_ne h with hlt | hgt
    · exact ⟨.shortRead, by
        unfold AddReferenceFromReader addGitRef
        rw [hshort hlt [srv.hashType]]⟩
    · exact ⟨.longRead, by
        unfold AddReferenceFromReader addGitRef
        rw [hlong hgt [srv.hashType]]⟩
  · intro h
    subst h
    exact AddReference_ok srv stream bom

/-- C6 witness: the repository's own test stream `"hello world"`
(11 bytes) against declared lengths 12 (short), 10 (long) and 11
(exact). -/
theorem C6_length_mismatch_witness :
    generateGitHash (utf8Bytes "hello world") 12 [.sha1] = .error .shortRead
    ∧ generateGitHash (utf8Bytes "hello world") 10 [.sha1] = .error .longRead
    ∧ AddReferenceFromReader NewSha1OmniBOR (utf8Bytes "hello world") none 11 =
        .ok ⟨.sha1, [⟨"95d09f2b10159347eece71399a7e2e907ea3df4f", none⟩]⟩ := by
  refine ⟨(C6_length_mismatch (utf8Bytes "hello world") 12 [.sha1] NewSha1OmniBOR none).1
      (by decide),
    (C6_length_mismatch (utf8Bytes "hello world") 10 [.sha1] NewSha1OmniBOR none).2.1
      (by decide), ?_⟩
  rw [(C6_length_mismatch (utf8Bytes "hello world") 11 [.sha1] NewSha1OmniBOR none).2.2.2.2
    (by decide)]
  refine congrArg Except.ok ?_
  decide

/-- C7 counterexample.  `NewIdentifier` performs no length validation:
`"abcd"` hex-decodes to 2 bytes — not the 20 a 160-bit digest needs, nor
40 hex characters — yet it is accepted. -/
theorem C7_no_length_check_cex :
    NewIdentifier "abcd" = some "abcd"
    ∧ goLength "abcd" ≠ 40
    ∧ (hexDecode "abcd").map List.length = some 2 := by
  exact ⟨by decide, by decide, by decide⟩

/-- C7 (corrected).  `NewIdentifier` rejects exactly the strings
`hex.DecodeString` rejects: the 39-character string (odd length), the
string with a non-hex character, and the whitespace variants are all
rejected, and the 40-character lowercase hex string is accepted — but
decoded length is never compared against the digest length. -/
theorem C7_hex_only_validation :
    NewIdentifier "23294b0610492cf55c1c4835216f20d376a287d" = none
    ∧ NewIdentifier "23294b0610492cf55c1c4835216f20d376a287dg" = none
    ∧ NewIdentifier "23294b0610492cf55c1c4835216f20d376a287dd " = none
    ∧ NewIdentifier " 23294b0610492cf 55c1c4835216f20d376a287dd " = none
    ∧ NewIdentifier "23294b0610492cf55c1c4835216f20d376a287dd" =
        some "23294b0610492cf55c1c4835216f20d376a287dd"
    ∧ (∀ s : String, NewIdentifier s = none ↔ hexDecode s = none) := by
  refine ⟨by decide, by decide, by decide, by decide, by decide, ?_⟩
  intro s
  unfold NewIdentifier
  cases hexDecode s <;> simp

/-- C8 (confirmed).  `AddExistingReference` rejects (and returns no
tree) any input whose Go length differs from the configured digest's
hex length (40 for sha1, 64 for sha256) and any input
`hex.DecodeString` rejects; a valid input already present leaves the
tree unchanged, and a valid absent one is appended as a bom-less
reference. -/
theorem C8_add_existing (srv : OmniBor) (input : String) :
    (goLength input ≠ (if srv.hashType = .sha256 then 64 else 40) →
      AddExistingReference srv input = .error (.invalidHashLength (goLength input)))
    ∧ (goLength input = (if srv.hashType = .sha256 then 64 else 40) →
        hexDecode input = none →
        AddExistingReference srv input = .error .invalidHex)
    ∧ (goLength input = (if srv.hashType = .sha256 then 64 else 40) →
        hexDecode input ≠ none →
        srv.gitRefs.any (fun existingRef => existingRef.identity = input) = true →
        AddExistingReference srv input = .ok srv)
    ∧ (goLength input = (if srv.hashType = .sha256 then 64 else 40) →
        hexDecode input ≠ none →
        srv.gitRefs.any (fun existingRef => existingRef.identity = input) = false →
        AddExistingReference srv input =
          .ok { srv with gitRefs := srv.gitRefs ++ [⟨input, none⟩] }) := by
  refine ⟨?_, ?_, ?_, ?_⟩
  · intro h
    simp [AddExistingReference, h]
  · intro h hx
    simp [AddExistingReference, h, hx]
  · intro h hx hmem
    simp [AddExistingReference, h, Option.isNone_iff_eq_none, hx, hmem]
  · intro h hx hmem
    simp [AddExistingReference, h, Option.isNone_iff_eq_none, hx, hmem]

/-- C8 witness: on a fresh SHA-1 tree the valid 40-character identity is
inserted bom-less; re-adding it leaves the tree unchanged; the
39-character input and the one with `'g'` are rejected; the 40-character
input is rejected by a SHA-256 tree expecting 64. -/
theorem C8_add_existing_witness :
    AddExistingReference NewSha1OmniBOR "23294b0610492cf55c1c4835216f20d376a287dd" =
      .ok ⟨.sha1, [⟨"23294b0610492cf55c1c4835216f20d376a287dd", none⟩]⟩
    ∧ AddExistingReference ⟨.sha1, [⟨"23294b0610492cf55c1c4835216f20d376a287dd", none⟩]⟩
        "23294b0610492cf55c1c4835216f20d376a287dd" =
      .ok ⟨.sha1, [⟨"23294b0610492cf55c1c4835216f20d376a287dd", none⟩]⟩
    ∧ AddExistingReference NewSha1OmniBOR "23294b0610492cf55c1c4835216f20d376a287d" =
      .error (.invalidHashLength 39)
    ∧ AddExistingReference NewSha1OmniBOR "23294b0610492cf55c1c4835216f20d376a287dg" =
      .error .invalidHex
    ∧ AddExistingReference NewSha256OmniBOR "23294b0610492cf55c1c4835216f20d376a287dd" =
      .error (.invalidHashLength 40) := by
  refine ⟨?_, ?_, ?_, ?_, ?_⟩
  · rw [(C8_add_existing NewSha1OmniBOR "23294b0610492cf55c1c4835216f20d376a287dd").2.2.2
      (by decide) (by decide) (by decide)]
    exact congrArg Except.ok (by decide)
  · rw [(C8_add_existing ⟨.sha1, [⟨"23294b0610492cf55c1c4835216f20d376a287dd", none⟩]⟩
      "23294b0610492cf55c1c4835216f20d376a287dd").2.2.1
      (by decide) (by decide) (by decide)]
  · rw [(C8_add_existing NewSha1OmniBOR "23294b0610492cf55c1c4835216f20d376a287d").1
      (by decide)]
    exact congrArg Except.error (by decide)
  · rw [(C8_add_existing NewSha1OmniBOR "23294b0610492cf55c1c4835216f20d376a287dg").2.1
      (by decide) (by decide)]
  · rw [(C8_add_existing NewSha256OmniBOR "23294b0610492cf55c1c4835216f20d376a287dd").1
      (by decide)]
    exact congrArg Except.error (by decide)

/-- `hexDecodeList` succeeds exactly on even-length sequences of hex
digits (either case). -/
theorem hexDecodeList_isSome_bounded : ∀ (n : Nat) (cs : List Char), cs.length ≤ n →
    ((hexDecodeList cs).isSome = true ↔
      (cs.length % 2 = 0 ∧ cs.all (fun c => (hexDigitVal c).isSome) = true)) := by
  intro n
  induction n with
  | zero =>
    intro cs hlen
    rw [List.length_eq_zero.mp (Nat.le_zero.mp hlen)]
    simp [hexDecodeList]
  | succ n ih =>
    intro cs hlen
    match cs with
    | [] => simp [hexDecodeList]
    | [a] => simp [hexDecodeList]
    | a :: b :: rest =>
      have hrest : rest.length ≤ n := by
        simp only [List.length_cons] at hlen
        omega
      have hmod : (a :: b :: rest).length % 2 = rest.length % 2 := by
        simp only [List.length_cons]
        omega
      cases ha : hexDigitVal a with
      | none => simp [hexDecodeList, ha]
      | some hi =>
        cases hb : hexDigitVal b with
        | none => simp [hexDecodeList, ha, hb]
        | some lo =>
          rw [hmod]
          simp only [List.all_cons, ha, hb, Option.isSome_some, Bool.true_and]
          rw [← ih rest hrest]
          simp only [hexDecodeList, ha, hb]
          cases hexDecodeList rest <;> simp

/-- C10 (confirmed).  `NewIdentifier` fails exactly when hex decoding
fails — the input must be an even-length string of hex digits, either
case, of any length — and on success returns the input unchanged; in
particular the empty string and `"ABCD"` are accepted as they are. -/
theorem C10_new_identifier :
    (∀ s : String, NewIdentifier s = none ↔
      ¬(s.data.length % 2 = 0 ∧ s.data.all (fun c => (hexDigitVal c).isSome) = true))
    ∧ (∀ s : String, NewIdentifier s = none ∨ NewIdentifier s = some s)
    ∧ NewIdentifier "" = some ""
    ∧ NewIdentifier "ABCD" = some "ABCD" := by
  refine ⟨?_, ?_, by decide, by decide⟩
  · intro s
    have h1 : NewIdentifier s = none ↔ hexDecode s = none := by
      unfold NewIdentifier
      cases hexDecode s <;> simp
    have h2 := (hexDecodeList_isSome_bounded s.data.length s.data le_rfl).not
    rw [h1]
    unfold hexDecode
    rw [← h2]
    cases hexDecodeList s.data <;> simp
  · intro s
    unfold NewIdentifier
    cases hexDecode s <;> simp
